import Mathlib

/-!
Verification of `monitor_domains.py`, a single-file domain-availability
monitor.  The script loads a watchlist of domain names, queries an external
`whois` subprocess for each, classifies each textual response, and — when at
least one domain is classified available — sends one notification email and
writes a result file.

The development below is a shallow embedding: the pure string processing of
the script is translated function by function, and the effectful parts
(subprocess, SMTP transport, file system, environment) are abstracted as
explicit inputs of a `World` structure consumed by a pure `runMain`.
-/

namespace Monitor

/-- Python `str.lower` on an ASCII-letter basis: lowercase every character. -/
def lowerStr (s : String) : String := ⟨s.data.map Char.toLower⟩

/-- Tests whether the first list is a leading segment of the second
(character-list version of Python `str.startswith`). -/
def isPrefL : List Char → List Char → Bool
  | [], _ => true
  | _ :: _, [] => false
  | a :: as, b :: bs => a == b && isPrefL as bs

/-- Python substring test `needle in hay`, scanning every start position of
the haystack. -/
def containsL (needle : List Char) : List Char → Bool
  | [] => isPrefL needle []
  | b :: bs => isPrefL needle (b :: bs) || containsL needle bs

/-- Python `needle in hay` on strings. -/
def containsStr (hay needle : String) : Bool := containsL needle.data hay.data

/-- Python `str.split(".")` on character lists: the groups of characters
between the dots.  Always returns a nonempty list. -/
def splitDot : List Char → List (List Char)
  | [] => [[]]
  | c :: cs =>
    match splitDot cs with
    | [] => [[]]
    | g :: gs => if c = '.' then [] :: g :: gs else (c :: g) :: gs

/-- Python `[-1]` indexing on a nonempty list of groups (total, returning
`[]` on the empty list, which `splitDot` never produces). -/
def lastGrp : List (List Char) → List Char
  | [] => []
  | [g] => g
  | _ :: g :: gs => lastGrp (g :: gs)

/-- The fixed suffix-to-hostname table of `get_whois_server`. -/
def servers : List (String × String) :=
  [("xyz", "whois.nic.xyz"),
   ("com", "whois.verisign-grs.com"),
   ("net", "whois.verisign-grs.com"),
   ("org", "whois.pir.org"),
   ("io", "whois.nic.io"),
   ("co", "whois.nic.co"),
   ("me", "whois.nic.me"),
   ("info", "whois.afilias.net"),
   ("top", "whois.nic.top"),
   ("cn", "whois.cnnic.cn")]

/-- Embeds `domain.split(".")[-1].lower()` from `get_whois_server`. -/
def tldOf (domain : String) : String := lowerStr ⟨lastGrp (splitDot domain.data)⟩

/-- Embeds `get_whois_server`: dictionary lookup of the lowercased last
dot-separated label, with the `whois.nic.<tld>` fallback. -/
def get_whois_server (domain : String) : String :=
  let tld := tldOf domain
  match servers.find? (fun p => p.1 == tld) with
  | some p => p.2
  | none => "whois.nic." ++ tld

/-- Outcome of one external `whois` subprocess invocation: normal completion
with captured stdout, expiry of the 30-second timeout, or any other raised
failure with its description. -/
inductive WhoisCall where
  | ok (stdout : String)
  | timedOut
  | failed (msg : String)

/-- The `not_found_keywords` list of `check_domain_whois`. -/
def not_found_keywords : List String :=
  ["domain not found",
   "no match",
   "not found",
   "no data found",
   "no entries found",
   "status: free",
   "status: available",
   "object does not exist"]

/-- The early-return `for keyword in not_found_keywords` loop of
`check_domain_whois`: the first matching keyword yields the available
result, a full pass yields nothing. -/
def scanNotFound : List String → String → Option (Bool × String)
  | [], _ => none
  | k :: ks, output =>
    if containsStr output k then some (true, "域名可注册") else scanNotFound ks output

/-- Classification of a successfully captured whois response: the body of
the `try` block of `check_domain_whois` after the subprocess call. -/
def classifyOutput (stdout : String) : Bool × String :=
  let output := lowerStr stdout
  match scanNotFound not_found_keywords output with
  | some r => r
  | none =>
    if containsStr output "domain name:" || containsStr output "registrar:" then
      (false, "域名已注册")
    else
      (false, "无法确定状态")

/-- Embeds `check_domain_whois` over the abstracted subprocess outcome,
including its two exception handlers. -/
def check_domain_whois (call : WhoisCall) : Bool × String :=
  match call with
  | .ok stdout => classifyOutput stdout
  | .timedOut => (false, "查询超时")
  | .failed e => (false, "查询出错: " ++ e)

/-- The three classification outcomes named by the specification. -/
inductive Status where
  | available
  | registered
  | indeterminate
deriving DecidableEq

/-- Modelled from the spec's words for comparison with the code: lowercase
the text, return available on any not-found phrase, else registered on
either registered keyword, else indeterminate. -/
def specClassify (text : String) : Status :=
  let low := lowerStr text
  if not_found_keywords.any (fun k => containsStr low k) then .available
  else if containsStr low "domain name:" || containsStr low "registrar:" then .registered
  else .indeterminate

/-- The (flag, message) pair `check_domain_whois` returns for each
spec-level status. -/
def statusPair : Status → Bool × String
  | .available => (true, "域名可注册")
  | .registered => (false, "域名已注册")
  | .indeterminate => (false, "无法确定状态")

/-- Removal of trailing whitespace (the second half of Python `str.strip`). -/
def stripTrail (l : List Char) : List Char :=
  (l.reverse.dropWhile Char.isWhitespace).reverse

/-- Python `str.strip` on character lists: drop leading and trailing
whitespace. -/
def stripL (l : List Char) : List Char := stripTrail (l.dropWhile Char.isWhitespace)

/-- Python `str.strip` on strings. -/
def pyStrip (s : String) : String := ⟨stripL s.data⟩

/-- One iteration of the `load_watchlist` line loop: strip the line and
append its lowercased form when it is nonempty and does not start with a
hash mark. -/
def load_step (acc : List String) (line : String) : List String :=
  let l := pyStrip line
  if !l.data.isEmpty && !(isPrefL ['#'] l.data) then acc ++ [lowerStr l] else acc

/-- Embeds the pure line processing of `load_watchlist` over the file's
lines. -/
def load_watchlist_lines (lines : List String) : List String :=
  lines.foldl load_step []

/-- Specification-side treatment of one watchlist line, following the
spec's words: trim, drop when empty after trimming or when the first
non-whitespace character is a hash mark, otherwise keep lowercased. -/
def specLine (line : String) : Option String :=
  let t := pyStrip line
  if t = "" then none
  else if (line.data.dropWhile Char.isWhitespace).head? = some '#' then none
  else some (lowerStr t)

/-- Specification-side loader: per-line filtering in file order, without
deduplication. -/
def specLoad (lines : List String) : List String := lines.filterMap specLine

/-- Character predicate keeping everything except the dot separator. -/
def keepNonDot (x : Char) : Bool := !(x == '.')

/-- Specification-side suffix extraction, following the spec's words: the
substring after the last dot (the longest dot-free trailing segment). -/
def suffixAfterLastDot (s : String) : String :=
  ⟨(s.data.reverse.takeWhile keepNonDot).reverse⟩

/-- Specification-side resolver, following the spec's words: the ten-entry
suffix table with the `whois.nic.<suffix>` fallback, keyed by the
lowercased suffix. -/
def serverForSuffix (t : String) : String :=
  if t = "xyz" then "whois.nic.xyz"
  else if t = "com" then "whois.verisign-grs.com"
  else if t = "net" then "whois.verisign-grs.com"
  else if t = "org" then "whois.pir.org"
  else if t = "io" then "whois.nic.io"
  else if t = "co" then "whois.nic.co"
  else if t = "me" then "whois.nic.me"
  else if t = "info" then "whois.afilias.net"
  else if t = "top" then "whois.nic.top"
  else if t = "cn" then "whois.cnnic.cn"
  else "whois.nic." ++ t

/-- One email message as constructed by `send_email`. -/
structure Email where
  subject : String
  fromAddr : String
  toAddr : String
  body : String
deriving DecidableEq

/-- Environment configuration resolved at process start, together with the
behaviour of the external SMTP transport for this run: `none` means every
transport step succeeds, `some e` means the first failing step raises an
exception described by `e`. -/
structure Config where
  smtpUser : String
  smtpPassword : String
  notifyEmail : String
  githubOutput : Bool
  smtpError : Option String

/-- Subject line of the notification email for `n` available domains. -/
def emailSubject (n : Nat) : String :=
  "🎉 域名可注册提醒 - 发现 " ++ toString n ++ " 个可注册域名！"

/-- One list-item line of the email body. -/
def liLine (domain : String) : String :=
  "<li style=\"margin: 10px 0;\"><strong>" ++ domain ++ "</strong></li>\n"

/-- Opening chunk of the HTML body, before the per-domain loop. -/
def emailIntro : String :=
  "\n<html>\n<body style=\"font-family: Arial, sans-serif; padding: 20px;\">\n<h2 style=\"color: #28a745;\">🎉 发现可注册的域名！</h2>\n<p>以下域名当前可以注册：</p>\n<ul style=\"font-size: 18px;\">\n"

/-- Closing chunk of the HTML body, carrying the generation timestamp. -/
def emailClose (ts : String) : String :=
  "\n</ul>\n<p style=\"color: #666;\">请尽快抢注！</p>\n<hr>\n<p style=\"font-size: 12px; color: #999;\">\n检测时间: " ++ ts ++ "<br>\n此邮件由域名监控脚本自动发送\n</p>\n</body>\n</html>\n"

/-- HTML body of the notification email, assembled by the `body +=` loop of
`send_email`. -/
def emailBody (ds : List String) (ts : String) : String :=
  (ds.foldl (fun body d => body ++ liLine d) emailIntro) ++ emailClose ts

/-- Observable outcome of `send_email`: its boolean return value, the
console lines it prints, and the message submitted to the transport, if
the sending sequence completed. -/
structure SendResult where
  ok : Bool
  printed : List String
  sent : Option Email
deriving DecidableEq

/-- Embeds `send_email`: skip with a warning when any credential is the
empty string, otherwise build the message and run the transport sequence,
catching a transport failure. -/
def send_email (cfg : Config) (available_domains : List String) (ts : String) : SendResult :=
  if cfg.smtpUser = "" ∨ cfg.smtpPassword = "" ∨ cfg.notifyEmail = "" then
    { ok := false,
      printed := ["⚠️ 邮件配置不完整，跳过发送邮件",
                  "请设置环境变量: SMTP_USER, SMTP_PASSWORD, NOTIFY_EMAIL"],
      sent := none }
  else
    match cfg.smtpError with
    | some e =>
      { ok := false, printed := ["❌ 发送邮件失败: " ++ e], sent := none }
    | none =>
      { ok := true,
        printed := ["✅ 邮件已发送到 " ++ cfg.notifyEmail],
        sent := some { subject := emailSubject available_domains.length,
                       fromAddr := cfg.smtpUser,
                       toAddr := cfg.notifyEmail,
                       body := emailBody available_domains ts } }

/-- The external world one run of `main` observes: the watchlist path and
the file's lines (`none` when the file is missing), the outcome of the
external whois subprocess per queried domain, the environment
configuration, and the run's timestamp. -/
structure World where
  watchPath : String
  watchFile : Option (List String)
  whois : String → WhoisCall
  cfg : Config
  ts : String

/-- Observable outcome of one run of `main`: the process exit code, the
fatal console message (if any), the domains looked up in order, the result
of the notifier call (if reached), the lines written to
`available_domains.txt` (if written), and the lines appended to the
GITHUB_OUTPUT channel. -/
structure RunResult where
  exitCode : Nat
  fatalMsg : Option String
  lookups : List String
  send : Option SendResult
  resultFile : Option (List String)
  githubLines : List String

/-- The watchlist `main` loads in world `w` (the empty list stands in for
the missing-file case, which `runMain` short-circuits before using it). -/
def domainsOf (w : World) : List String :=
  load_watchlist_lines (w.watchFile.getD [])

/-- The `available_domains` accumulator of `main`: the checked domains
whose whois lookup classified them as available, in watchlist order. -/
def availableOf (w : World) : List String :=
  (domainsOf w).filter (fun d => (check_domain_whois (w.whois d)).1)

/-- First line `main` writes to `available_domains.txt`. -/
def headerLine (ts : String) : String := "# 检测时间: " ++ ts

/-- Embeds `main`, with `load_watchlist`'s missing-file exit inlined:
missing file is fatal; an empty watchlist ends the run; otherwise every
domain is checked in order, and the notifier, result file and
GITHUB_OUTPUT lines are produced exactly when some domain is available. -/
def runMain (w : World) : RunResult :=
  match w.watchFile with
  | none =>
    { exitCode := 1,
      fatalMsg := some ("❌ 找不到清单文件: " ++ w.watchPath),
      lookups := [], send := none, resultFile := none, githubLines := [] }
  | some _ =>
    let domains := domainsOf w
    if domains.isEmpty then
      { exitCode := 0, fatalMsg := none, lookups := [], send := none,
        resultFile := none, githubLines := [] }
    else
      let available_domains := availableOf w
      if available_domains.isEmpty then
        { exitCode := 0, fatalMsg := none, lookups := domains, send := none,
          resultFile := none,
          githubLines := if w.cfg.githubOutput then ["available=false"] else [] }
      else
        { exitCode := 0, fatalMsg := none, lookups := domains,
          send := some (send_email w.cfg available_domains w.ts),
          resultFile := some (headerLine w.ts :: available_domains),
          githubLines :=
            if w.cfg.githubOutput then
              ["available=true", "count=" ++ toString available_domains.length]
            else [] }

/-- The email a run actually submitted to the SMTP transport, if any. -/
def sentEmail (r : RunResult) : Option Email := r.send.bind SendResult.sent

/-- A complete mail configuration with a working transport, for concrete
evaluations. -/
def cfgFull : Config :=
  { smtpUser := "alerts@example.com", smtpPassword := "secret",
    notifyEmail := "ops@example.com", githubOutput := true, smtpError := none }

/-- A configuration with the sender credential missing. -/
def cfgNoUser : Config :=
  { smtpUser := "", smtpPassword := "secret", notifyEmail := "ops@example.com",
    githubOutput := false, smtpError := none }

/-- A complete configuration whose transport sequence fails. -/
def cfgBadSmtp : Config :=
  { smtpUser := "alerts@example.com", smtpPassword := "secret",
    notifyEmail := "ops@example.com", githubOutput := false,
    smtpError := some "Connection refused" }

/-- A world whose watchlist file is missing. -/
def wMissing : World :=
  { watchPath := "watchlist.txt", watchFile := none, whois := fun _ => .ok "",
    cfg := cfgFull, ts := "2025-01-01 00:00:00" }

/-- A world with one watched domain whose lookup reports it available. -/
def wPresent : World :=
  { watchPath := "watchlist.txt", watchFile := some ["foo.xyz"],
    whois := fun _ => .ok "Domain not found", cfg := cfgFull,
    ts := "2025-01-01 00:00:00" }

/-- A world with two watched domains, both reported available. -/
def wAvail : World :=
  { watchPath := "watchlist.txt", watchFile := some ["foo.xyz", "bar.com"],
    whois := fun _ => .ok "Domain not found", cfg := cfgFull,
    ts := "2025-01-01 00:00:00" }

/-- A world whose only watched domain is registered. -/
def wNone : World :=
  { watchPath := "watchlist.txt", watchFile := some ["foo.com"],
    whois := fun _ => .ok "Registrar: Example Inc.", cfg := cfgFull,
    ts := "2025-01-01 00:00:00" }

/-- A world with an available domain but incomplete mail credentials. -/
def wAvailNoCred : World :=
  { watchPath := "watchlist.txt", watchFile := some ["foo.xyz"],
    whois := fun _ => .ok "No match", cfg := cfgNoUser,
    ts := "2025-01-01 00:00:00" }

/-- A world mixing one available and one registered domain. -/
def wMix : World :=
  { watchPath := "watchlist.txt", watchFile := some ["foo.xyz", "bar.com"],
    whois := fun d => if d = "foo.xyz" then .ok "No match" else .ok "Domain Name: bar.com",
    cfg := cfgFull, ts := "2025-01-01 00:00:00" }

lemma takeWhile_append_of_all {α : Type} (p : α → Bool) (ys zs : List α)
    (h : ∀ y ∈ ys, p y = true) :
    (ys ++ zs).takeWhile p = ys ++ zs.takeWhile p := by
  induction ys with
  | nil => simp
  | cons a as ih =>
    have ha : p a = true := h a (by simp)
    simp [List.takeWhile_cons, ha, ih (fun y hy => h y (by simp [hy]))]

lemma takeWhile_append_of_stop {α : Type} (p : α → Bool) (ys zs : List α)
    (h : ∃ y ∈ ys, p y = false) :
    (ys ++ zs).takeWhile p = ys.takeWhile p := by
  induction ys with
  | nil => simp at h
  | cons a as ih =>
    by_cases ha : p a = true
    · obtain ⟨y, hy, hpy⟩ := h
      rcases List.mem_cons.mp hy with h1 | h2
      · rw [h1] at hpy; rw [hpy] at ha; exact absurd ha (by simp)
      · simp [List.takeWhile_cons, ha, ih ⟨y, h2, hpy⟩]
    · simp only [Bool.not_eq_true] at ha
      simp [List.takeWhile_cons, ha]

lemma splitDot_ne_nil : ∀ l : List Char, splitDot l ≠ []
  | [] => by simp [splitDot]
  | c :: cs => by
    simp only [splitDot]
    cases h : splitDot cs with
    | nil => simp
    | cons g gs => by_cases hc : c = '.' <;> simp [hc]

lemma splitDot_no_dot (l : List Char) (h : '.' ∉ l) : splitDot l = [l] := by
  induction l with
  | nil => rfl
  | cons c cs ih =>
    simp only [List.mem_cons, not_or] at h
    obtain ⟨h1, h2⟩ := h
    simp only [splitDot, ih h2]
    rw [if_neg (fun hh => h1 hh.symm)]

lemma splitDot_tail_ne_nil (l : List Char) (h : '.' ∈ l) :
    ∃ g gs, splitDot l = g :: gs ∧ gs ≠ [] := by
  induction l with
  | nil => simp at h
  | cons c cs ih =>
    rcases List.mem_cons.mp h with h1 | h2
    · cases hs : splitDot cs with
      | nil => exact absurd hs (splitDot_ne_nil cs)
      | cons g gs =>
        exact ⟨[], g :: gs, by simp [splitDot, hs, if_pos h1.symm], by simp⟩
    · obtain ⟨g, gs, hs, hgs⟩ := ih h2
      by_cases hc : c = '.'
      · exact ⟨[], g :: gs, by simp [splitDot, hs, hc], by simp⟩
      · cases gs with
        | nil => exact absurd rfl hgs
        | cons g' gs' =>
          exact ⟨c :: g, g' :: gs', by simp [splitDot, hs, hc], by simp⟩

lemma lastGrp_cons_cons (a b : List Char) (l : List (List Char)) :
    lastGrp (a :: b :: l) = lastGrp (b :: l) := rfl

lemma lastGrp_splitDot (l : List Char) :
    lastGrp (splitDot l) = (l.reverse.takeWhile keepNonDot).reverse := by
  induction l with
  | nil => rfl
  | cons c cs ih =>
    by_cases hd : '.' ∈ cs
    · have hstop : ∃ y ∈ cs.reverse, keepNonDot y = false :=
        ⟨'.', by simpa using hd, by simp [keepNonDot]⟩
      have hr : ((c :: cs).reverse.takeWhile keepNonDot) =
          cs.reverse.takeWhile keepNonDot := by
        rw [List.reverse_cons]; exact takeWhile_append_of_stop _ _ _ hstop
      obtain ⟨g, gs, hs, hgs⟩ := splitDot_tail_ne_nil cs hd
      cases gs with
      | nil => exact absurd rfl hgs
      | cons g' gs' =>
        have hl : lastGrp (splitDot (c :: cs)) = lastGrp (splitDot cs) := by
          simp only [splitDot, hs]
          by_cases hc : c = '.'
          · rw [if_pos hc, lastGrp_cons_cons]
          · rw [if_neg hc, lastGrp_cons_cons, lastGrp_cons_cons]
        rw [hl, ih, hr]
    · have hall : ∀ y ∈ cs.reverse, keepNonDot y = true := by
        intro y hy
        simp only [List.mem_reverse] at hy
        simp only [keepNonDot, Bool.not_eq_true', beq_eq_false_iff_ne]
        intro hh
        exact hd (hh ▸ hy)
      have hr : ((c :: cs).reverse.takeWhile keepNonDot) =
          cs.reverse ++ ([c].takeWhile keepNonDot) := by
        rw [List.reverse_cons]; exact takeWhile_append_of_all _ _ _ hall
      have hsd := splitDot_no_dot cs hd
      by_cases hc : c = '.'
      · subst hc
        simp only [splitDot, hsd, if_pos rfl, hr]
        simp [lastGrp, keepNonDot]
      · simp only [splitDot, hsd, if_neg hc, hr]
        simp [lastGrp, keepNonDot, hc]

lemma servers_table (t : String) :
    (match servers.find? (fun p => p.1 == t) with
     | some p => p.2
     | none => "whois.nic." ++ t) = serverForSuffix t := by
  unfold serverForSuffix
  split_ifs with h1 h2 h3 h4 h5 h6 h7 h8 h9 h10
  all_goals try (subst_vars; decide)
  have hn : servers.find? (fun p => p.1 == t) = none := by
    rw [List.find?_eq_none]
    intro x hx
    fin_cases hx <;>
      (simp only [beq_iff_eq]; intro hh; subst hh; simp_all)
  rw [hn]

lemma get_whois_server_eq (d : String) :
    get_whois_server d = serverForSuffix (lowerStr (suffixAfterLastDot d)) := by
  have key : tldOf d = lowerStr (suffixAfterLastDot d) := by
    unfold tldOf suffixAfterLastDot
    rw [lastGrp_splitDot]
  simp only [get_whois_server, key]
  exact servers_table _

/-- C2: the hostname `get_whois_server` returns depends only on the
lowercased substring after the last dot; the ten known suffixes map through
the table and every other suffix gets the `whois.nic.<suffix>` fallback,
and the resolver is a total deterministic function. -/
theorem get_whois_server_suffix_only :
    (∀ d : String, get_whois_server d = serverForSuffix (lowerStr (suffixAfterLastDot d))) ∧
    (∀ d₁ d₂ : String, lowerStr (suffixAfterLastDot d₁) = lowerStr (suffixAfterLastDot d₂) →
      get_whois_server d₁ = get_whois_server d₂) :=
  ⟨get_whois_server_eq, fun d₁ d₂ h => by
    rw [get_whois_server_eq, get_whois_server_eq, h]⟩

/-- Witness for C2 at concrete domains: a fallback suffix resolves through
the spec-side table, and two domains sharing a suffix up to case resolve
identically. -/
theorem get_whois_server_suffix_only_witness :
    get_whois_server "a.dev" = "whois.nic.dev" ∧
    get_whois_server "SUB.Example.COM" = get_whois_server "foo.com" :=
  ⟨(get_whois_server_suffix_only.1 "a.dev").trans (by decide),
   get_whois_server_suffix_only.2 "SUB.Example.COM" "foo.com" (by decide)⟩

/-- C10: for a dot-free domain string the whole lowercased string is the
suffix, resolved through the same table-with-fallback, and the empty string
is accepted, yielding the degenerate hostname `whois.nic.`. -/
theorem get_whois_server_no_dot :
    (∀ d : String, '.' ∉ d.data → get_whois_server d = serverForSuffix (lowerStr d)) ∧
    get_whois_server "" = "whois.nic." := by
  constructor
  · intro d h
    rw [get_whois_server_eq]
    have hs : suffixAfterLastDot d = d := by
      unfold suffixAfterLastDot
      have hall : ∀ y ∈ d.data.reverse, keepNonDot y = true := by
        intro y hy
        simp only [List.mem_reverse] at hy
        simp only [keepNonDot, Bool.not_eq_true', beq_eq_false_iff_ne]
        intro hh
        exact h (hh ▸ hy)
      have htw := takeWhile_append_of_all keepNonDot d.data.reverse [] hall
      simp only [List.append_nil, List.takeWhile_nil] at htw
      rw [htw, List.reverse_reverse]
    rw [hs]
  · decide

/-- Witness for C10 at a concrete dot-free name. -/
theorem get_whois_server_no_dot_witness :
    get_whois_server "localhost" = "whois.nic.localhost" :=
  (get_whois_server_no_dot.1 "localhost" (by decide)).trans (by decide)

lemma scanNotFound_eq_any (ks : List String) (out : String) :
    scanNotFound ks out =
      if ks.any (fun k => containsStr out k) then some (true, "域名可注册") else none := by
  induction ks with
  | nil => simp [scanNotFound]
  | cons k ks ih =>
    by_cases h : containsStr out k = true
    · simp [scanNotFound, h]
    · simp only [Bool.not_eq_true] at h
      simp [scanNotFound, h, ih]

/-- C1: `check_domain_whois` classifies a captured response by lowercasing
it and then testing, in order: any of the eight not-found phrases
(available), else either registered keyword (registered), else
indeterminate; the early-return keyword loop equals plain any-membership,
available-phrase membership takes precedence over registered-phrase
membership, and the outcome depends only on the case-normalised text. -/
theorem check_domain_whois_classification :
    (∀ s : String, classifyOutput s = statusPair (specClassify s)) ∧
    (∀ s t : String, lowerStr s = lowerStr t → classifyOutput s = classifyOutput t) := by
  constructor
  · intro s
    simp only [classifyOutput, specClassify, scanNotFound_eq_any]
    by_cases h : (not_found_keywords.any fun k => containsStr (lowerStr s) k) = true
    · simp [h, statusPair]
    · simp only [Bool.not_eq_true] at h
      by_cases h2 :
          (containsStr (lowerStr s) "domain name:" || containsStr (lowerStr s) "registrar:") = true
      · simp [h, h2, statusPair]
      · simp only [Bool.not_eq_true] at h2
        simp [h, h2, statusPair]
  · intro s t h
    simp only [classifyOutput, h]

/-- Witness for C1 at concrete responses: a mixed-case not-found response,
and case-insensitivity between two concrete casings. -/
theorem check_domain_whois_classification_witness :
    classifyOutput "Domain NOT Found: example.xyz" = statusPair (specClassify "Domain NOT Found: example.xyz") ∧
    classifyOutput "REGISTRAR: Example Inc." = classifyOutput "registrar: example inc." :=
  ⟨check_domain_whois_classification.1 "Domain NOT Found: example.xyz",
   check_domain_whois_classification.2 "REGISTRAR: Example Inc." "registrar: example inc."
     (by decide)⟩

lemma dropWhile_append_single {α : Type} (p : α → Bool) (ys : List α) (c : α)
    (h : p c = false) :
    (ys ++ [c]).dropWhile p = ys.dropWhile p ++ [c] := by
  induction ys with
  | nil => simp [List.dropWhile_cons, h]
  | cons a as ih =>
    by_cases ha : p a = true
    · simp [List.dropWhile_cons, ha, ih]
    · simp only [Bool.not_eq_true] at ha
      simp [List.dropWhile_cons, ha]

lemma stripTrail_cons (c : Char) (cs : List Char) (h : Char.isWhitespace c = false) :
    stripTrail (c :: cs) = c :: stripTrail cs := by
  unfold stripTrail
  rw [List.reverse_cons, dropWhile_append_single _ _ _ h, List.reverse_append]
  simp

lemma dropWhile_head {α : Type} (p : α → Bool) (l : List α) (c : α) (cs : List α)
    (h : l.dropWhile p = c :: cs) : p c = false := by
  induction l with
  | nil => simp [List.dropWhile_nil] at h
  | cons a as ih =>
    by_cases ha : p a = true
    · rw [List.dropWhile_cons, if_pos ha] at h
      exact ih h
    · simp only [Bool.not_eq_true] at ha
      rw [List.dropWhile_cons, if_neg (by simp [ha])] at h
      injection h with h1 h2
      rw [← h1]
      exact ha

lemma load_step_eq (acc : List String) (line : String) :
    load_step acc line = acc ++ (specLine line).toList := by
  cases hu : line.data.dropWhile Char.isWhitespace with
  | nil =>
    have ht : pyStrip line = "" := by
      unfold pyStrip stripL
      rw [hu]
      rfl
    simp [load_step, specLine, ht, hu]
  | cons c cs =>
    have hc : Char.isWhitespace c = false := dropWhile_head _ _ _ _ hu
    have ht : pyStrip line = ⟨c :: stripTrail cs⟩ := by
      unfold pyStrip stripL
      rw [hu, stripTrail_cons c cs hc]
    have hne : (⟨c :: stripTrail cs⟩ : String) ≠ "" := by
      intro hcon
      have := congrArg String.data hcon
      simp at this
    by_cases hh : c = '#'
    · subst hh
      simp [load_step, specLine, ht, hu, hne, isPrefL]
    · have hb : ('#' == c) = false := by
        simp only [beq_eq_false_iff_ne]
        exact fun hcon => hh hcon.symm
      simp [load_step, specLine, ht, hu, hne, isPrefL, hb, hh]

lemma foldl_load_step (lines : List String) (acc : List String) :
    lines.foldl load_step acc = acc ++ specLoad lines := by
  induction lines generalizing acc with
  | nil => simp [specLoad]
  | cons l ls ih =>
    rw [List.foldl_cons, load_step_eq, ih]
    cases h : specLine l <;> simp [specLoad, List.filterMap_cons, h]

/-- C3: `load_watchlist` trims each line, drops lines empty after trimming
and lines whose first non-whitespace character is a hash mark, lowercases
the rest and keeps them in file order without deduplication; on the
spec's concrete four-line file it yields exactly the two domains. -/
theorem load_watchlist_filtering :
    (∀ lines : List String, load_watchlist_lines lines = specLoad lines) ∧
    load_watchlist_lines ["example.com", "", "# comment", "  TEST.IO  "] =
      ["example.com", "test.io"] := by
  constructor
  · intro lines
    unfold load_watchlist_lines
    rw [foldl_load_step]
    simp
  · decide

lemma isPrefL_append_self (n suf : List Char) : isPrefL n (n ++ suf) = true := by
  induction n with
  | nil => rfl
  | cons a as ih => simp [isPrefL, ih]

lemma containsL_here (n suf : List Char) : containsL n (n ++ suf) = true := by
  cases hns : n ++ suf with
  | nil =>
    obtain ⟨h1, h2⟩ := List.append_eq_nil.mp hns
    subst h1
    rfl
  | cons b bs =>
    have hp : isPrefL n (b :: bs) = true := by
      rw [← hns]
      exact isPrefL_append_self n suf
    simp [containsL, hp]

lemma containsL_append_right (n pre rest : List Char) (h : containsL n rest = true) :
    containsL n (pre ++ rest) = true := by
  induction pre with
  | nil => simpa
  | cons a as ih => simp [containsL, ih]

lemma containsL_mid (n pre suf : List Char) : containsL n (pre ++ (n ++ suf)) = true :=
  containsL_append_right n pre _ (containsL_here n suf)

lemma data_append (s t : String) : (s ++ t).data = s.data ++ t.data := rfl

lemma foldl_liLine_extend (ds : List String) (init : String) :
    ∃ rest : String, ds.foldl (fun b x => b ++ liLine x) init = init ++ rest := by
  induction ds generalizing init with
  | nil => exact ⟨"", by simp⟩
  | cons a as ih =>
    obtain ⟨rest, hrest⟩ := ih (init ++ liLine a)
    exact ⟨liLine a ++ rest, by rw [List.foldl_cons, hrest, String.append_assoc]⟩

lemma foldl_liLine_split (ds : List String) (d : String) (hd : d ∈ ds) (start : String) :
    ∃ pre suf : String,
      ds.foldl (fun b x => b ++ liLine x) start = pre ++ (liLine d ++ suf) := by
  induction ds generalizing start with
  | nil => simp at hd
  | cons a as ih =>
    rw [List.foldl_cons]
    rcases List.mem_cons.mp hd with h1 | h2
    · subst h1
      obtain ⟨rest, hrest⟩ := foldl_liLine_extend as (start ++ liLine d)
      exact ⟨start, rest, by rw [hrest, String.append_assoc]⟩
    · exact ih h2 (start ++ liLine a)

lemma containsStr_emailBody (ds : List String) (ts d : String) (hd : d ∈ ds) :
    containsStr (emailBody ds ts) (liLine d) = true := by
  obtain ⟨pre, suf, hsplit⟩ := foldl_liLine_split ds d hd emailIntro
  unfold emailBody containsStr
  rw [hsplit]
  have hdata : ((pre ++ (liLine d ++ suf)) ++ emailClose ts).data
      = pre.data ++ ((liLine d).data ++ (suf.data ++ (emailClose ts).data)) := by
    simp [data_append]
  rw [hdata]
  exact containsL_mid _ _ _

lemma availableOf_none (w : World) (h : w.watchFile = none) : availableOf w = [] := by
  simp [availableOf, domainsOf, h, load_watchlist_lines]

lemma runMain_available (w : World) (hA : availableOf w ≠ []) :
    runMain w =
      { exitCode := 0, fatalMsg := none, lookups := domainsOf w,
        send := some (send_email w.cfg (availableOf w) w.ts),
        resultFile := some (headerLine w.ts :: availableOf w),
        githubLines :=
          if w.cfg.githubOutput then
            ["available=true", "count=" ++ toString (availableOf w).length]
          else [] } := by
  cases hwf : w.watchFile with
  | none => exact absurd (availableOf_none w hwf) hA
  | some L =>
    cases hD : domainsOf w with
    | nil => exact absurd (by simp [availableOf, hD]) hA
    | cons a as =>
      cases hAv : availableOf w with
      | nil => exact absurd hAv hA
      | cons b bs =>
        simp only [runMain, hwf, hD, hAv, List.isEmpty_cons]
        simp

lemma runMain_no_available (w : World) (L : List String) (hwf : w.watchFile = some L)
    (hD : domainsOf w ≠ []) (hA : availableOf w = []) :
    runMain w =
      { exitCode := 0, fatalMsg := none, lookups := domainsOf w, send := none,
        resultFile := none,
        githubLines := if w.cfg.githubOutput then ["available=false"] else [] } := by
  cases hDl : domainsOf w with
  | nil => exact absurd hDl hD
  | cons a as =>
    simp only [runMain, hwf, hDl, hA, List.isEmpty_cons, List.isEmpty_nil]
    simp

/-- C4: a missing watchlist file makes the run print an error naming the
path and end with exit code 1 before any domain lookup; every run with a
present file ends with exit code 0 and no fatal message, so the missing
file is the only fatal condition. -/
theorem missing_watchlist_fatal (w : World) :
    (w.watchFile = none →
      runMain w =
        { exitCode := 1, fatalMsg := some ("❌ 找不到清单文件: " ++ w.watchPath),
          lookups := [], send := none, resultFile := none, githubLines := [] }) ∧
    (w.watchFile ≠ none → (runMain w).exitCode = 0 ∧ (runMain w).fatalMsg = none) := by
  constructor
  · intro h
    simp [runMain, h]
  · intro h
    cases hwf : w.watchFile with
    | none => exact absurd hwf h
    | some L =>
      simp only [runMain, hwf]
      split_ifs <;> simp

/-- Witness for C4 at a concrete missing-file world and a concrete
present-file world. -/
theorem missing_watchlist_fatal_witness :
    (runMain wMissing).exitCode = 1 ∧ (runMain wMissing).lookups = [] ∧
    (runMain wPresent).exitCode = 0 :=
  ⟨by rw [(missing_watchlist_fatal wMissing).1 rfl],
   by rw [(missing_watchlist_fatal wMissing).1 rfl],
   ((missing_watchlist_fatal wPresent).2 (by simp [wPresent])).1⟩

/-- C5: with at least one available domain, all credentials present and a
working transport, exactly one email is submitted; its subject states the
available count, its body contains one list item per available domain, and
the result file holds the timestamp comment line followed by the available
domains in discovery order. -/
theorem notification_and_result_file (w : World)
    (hA : availableOf w ≠ []) (hu : w.cfg.smtpUser ≠ "") (hp : w.cfg.smtpPassword ≠ "")
    (hn : w.cfg.notifyEmail ≠ "") (ht : w.cfg.smtpError = none) :
    sentEmail (runMain w) =
      some { subject := emailSubject (availableOf w).length,
             fromAddr := w.cfg.smtpUser, toAddr := w.cfg.notifyEmail,
             body := emailBody (availableOf w) w.ts } ∧
    emailSubject (availableOf w).length =
      "🎉 域名可注册提醒 - 发现 " ++ toString (availableOf w).length ++ " 个可注册域名！" ∧
    (∀ d ∈ availableOf w, containsStr (emailBody (availableOf w) w.ts) (liLine d) = true) ∧
    (runMain w).resultFile = some (headerLine w.ts :: availableOf w) := by
  rw [runMain_available w hA]
  refine ⟨?_, rfl, ?_, rfl⟩
  · simp [sentEmail, send_email, hu, hp, hn, ht]
  · intro d hd
    exact containsStr_emailBody _ _ _ hd

/-- Witness for C5 at a concrete two-domain world with full credentials. -/
theorem notification_and_result_file_witness :
    (runMain wAvail).resultFile =
      some ["# 检测时间: 2025-01-01 00:00:00", "foo.xyz", "bar.com"] ∧
    containsStr (emailBody (availableOf wAvail) wAvail.ts) (liLine "foo.xyz") = true ∧
    sentEmail (runMain wAvail) =
      some { subject := emailSubject 2, fromAddr := "alerts@example.com",
             toAddr := "ops@example.com",
             body := emailBody ["foo.xyz", "bar.com"] "2025-01-01 00:00:00" } := by
  have h := notification_and_result_file wAvail (by decide) (by decide) (by decide)
    (by decide) rfl
  have hav : availableOf wAvail = ["foo.xyz", "bar.com"] := by decide
  exact ⟨h.2.2.2.trans (by decide), h.2.2.1 "foo.xyz" (by decide),
    h.1.trans (by rw [hav]; rfl)⟩

/-- C6: when a non-empty watchlist yields no available domain, no email is
sent, the result file is not written, and the GITHUB_OUTPUT channel (when
configured) receives exactly the line available=false. -/
theorem no_available_no_outputs (w : World) (L : List String)
    (hwf : w.watchFile = some L) (hD : domainsOf w ≠ []) (hA : availableOf w = []) :
    (runMain w).send = none ∧ sentEmail (runMain w) = none ∧
    (runMain w).resultFile = none ∧
    (runMain w).githubLines = (if w.cfg.githubOutput then ["available=false"] else []) := by
  rw [runMain_no_available w L hwf hD hA]
  exact ⟨rfl, rfl, rfl, rfl⟩

/-- Witness for C6 at a concrete registered-only world with the trigger
channel configured. -/
theorem no_available_no_outputs_witness :
    (runMain wNone).send = none ∧ (runMain wNone).resultFile = none ∧
    (runMain wNone).githubLines = ["available=false"] := by
  have h := no_available_no_outputs wNone ["foo.com"] rfl (by decide) (by decide)
  exact ⟨h.1, h.2.2.1, h.2.2.2.trans (by decide)⟩

/-- C7: `send_email` is total; with any credential missing it sends
nothing, prints the two warning lines naming the configuration variables
and returns false; with present credentials and a failing transport step it
returns false, prints the failure description and sends nothing; and
whatever `send_email` did, a run with available domains still writes the
result file. -/
theorem send_email_never_raises :
    (∀ cfg ds ts, (cfg.smtpUser = "" ∨ cfg.smtpPassword = "" ∨ cfg.notifyEmail = "") →
      send_email cfg ds ts =
        { ok := false,
          printed := ["⚠️ 邮件配置不完整，跳过发送邮件",
                      "请设置环境变量: SMTP_USER, SMTP_PASSWORD, NOTIFY_EMAIL"],
          sent := none }) ∧
    (∀ cfg ds ts e, cfg.smtpUser ≠ "" → cfg.smtpPassword ≠ "" → cfg.notifyEmail ≠ "" →
      cfg.smtpError = some e →
      send_email cfg ds ts =
        { ok := false, printed := ["❌ 发送邮件失败: " ++ e], sent := none }) ∧
    (∀ w : World, availableOf w ≠ [] →
      (runMain w).resultFile = some (headerLine w.ts :: availableOf w)) := by
  refine ⟨?_, ?_, ?_⟩
  · intro cfg ds ts h
    simp [send_email, h]
  · intro cfg ds ts e hu hp hn he
    simp [send_email, hu, hp, hn, he]
  · intro w hA
    rw [runMain_available w hA]

/-- Witness for C7: the missing-credential skip, a concrete transport
failure, and the result file written despite incomplete credentials. -/
theorem send_email_never_raises_witness :
    (send_email cfgNoUser ["foo.xyz"] "2025-01-01 00:00:00").ok = false ∧
    send_email cfgBadSmtp ["foo.xyz"] "2025-01-01 00:00:00" =
      { ok := false, printed := ["❌ 发送邮件失败: Connection refused"], sent := none } ∧
    (runMain wAvailNoCred).resultFile = some ["# 检测时间: 2025-01-01 00:00:00", "foo.xyz"] := by
  refine ⟨?_, ?_, ?_⟩
  · rw [send_email_never_raises.1 cfgNoUser ["foo.xyz"] "2025-01-01 00:00:00" (Or.inl rfl)]
  · exact (send_email_never_raises.2.1 cfgBadSmtp ["foo.xyz"] "2025-01-01 00:00:00"
      "Connection refused" (by decide) (by decide) (by decide) rfl)
  · exact (send_email_never_raises.2.2 wAvailNoCred (by decide)).trans (by decide)

/-- C8: a timed-out whois invocation yields not-available with the distinct
timeout message, any other invocation failure yields not-available with a
message carrying the failure description, and in every run the sequence of
performed lookups is exactly the loaded watchlist — one attempt per domain,
no retry, the loop continuing past failures. -/
theorem whois_failure_handling :
    check_domain_whois .timedOut = (false, "查询超时") ∧
    (∀ e, check_domain_whois (.failed e) = (false, "查询出错: " ++ e)) ∧
    (∀ w : World, (runMain w).lookups = domainsOf w) := by
  refine ⟨rfl, fun e => rfl, ?_⟩
  intro w
  cases hwf : w.watchFile with
  | none =>
    simp [runMain, hwf, domainsOf, load_watchlist_lines]
  | some L =>
    cases hD : domainsOf w with
    | nil => simp [runMain, hwf, hD]
    | cons a as =>
      have h1 : (domainsOf w).isEmpty = false := by rw [hD]; rfl
      simp only [runMain, hwf, h1]
      cases hAv : (availableOf w).isEmpty <;> simp [hAv, hD]

/-- C9: the available-domains sequence is a sublist of the loaded
watchlist (hence preserves its order), every element of it was classified
available by its own lookup, and exactly this sequence is handed to the
notifier and written after the timestamp line of the result file. -/
theorem available_subsequence_invariant (w : World) :
    List.Sublist (availableOf w) (domainsOf w) ∧
    (∀ d ∈ availableOf w, (check_domain_whois (w.whois d)).1 = true) ∧
    (availableOf w ≠ [] →
      (runMain w).resultFile = some (headerLine w.ts :: availableOf w) ∧
      (runMain w).send = some (send_email w.cfg (availableOf w) w.ts)) := by
  refine ⟨List.filter_sublist _, ?_, ?_⟩
  · intro d hd
    simpa using (List.mem_filter.mp hd).2
  · intro hA
    rw [runMain_available w hA]
    exact ⟨rfl, rfl⟩

/-- Witness for C9 at a concrete mixed world: one available domain out of
two watched ones. -/
theorem available_subsequence_invariant_witness :
    List.Sublist (availableOf wMix) (domainsOf wMix) ∧
    (check_domain_whois (wMix.whois "foo.xyz")).1 = true ∧
    (runMain wMix).resultFile = some ["# 检测时间: 2025-01-01 00:00:00", "foo.xyz"] := by
  have h := available_subsequence_invariant wMix
  exact ⟨h.1, h.2.1 "foo.xyz" (by decide), ((h.2.2 (by decide)).1).trans (by decide)⟩

end Monitor
